import Mathlib

/-!
Shallow embedding of the PNG-chunk codec core (`src/chunk_type.rs`,
`src/chunk.rs`).  Machine bytes (`u8`) are modelled as `Nat` constrained to
`< 256` in hypotheses; `u32` values are `Nat` reduced `% 2 ^ 32` exactly where
the Rust code truncates.  Rust panics (`unwrap`, arithmetic overflow) are
modelled by the dedicated error constructor `ChunkError.panicked`, kept apart
from the value-level errors the code returns with `Err`.
-/

namespace PngCodec

/-- Rust `u8::is_ascii_alphabetic` / `char::is_ascii_alphabetic`:
the value is in `b'A'..=b'Z'` (65–90) or `b'a'..=b'z'` (97–122). -/
def isAsciiAlphabetic (b : Nat) : Bool :=
  decide ((65 ≤ b ∧ b ≤ 90) ∨ (97 ≤ b ∧ b ≤ 122))

/-- UTF-8 encoding of a Unicode scalar value, as used by Rust `str::as_bytes`
for one `char`. -/
def utf8Encode (c : Nat) : List Nat :=
  if c < 128 then [c]
  else if c < 2048 then [192 + c / 64, 128 + c % 64]
  else if c < 65536 then [224 + c / 4096, 128 + c / 64 % 64, 128 + c % 64]
  else [240 + c / 262144, 128 + c / 4096 % 64, 128 + c / 64 % 64, 128 + c % 64]

/-- Rust `u32::to_be_bytes`: big-endian byte decomposition of a 32-bit value. -/
def u32BeBytes (n : Nat) : List Nat :=
  [n / 2 ^ 24 % 256, n / 2 ^ 16 % 256, n / 2 ^ 8 % 256, n % 256]

/-- Rust `u32::from_be_bytes`: big-endian recomposition of 4 bytes. -/
def u32FromBeBytes (l : List Nat) : Nat :=
  l.foldl (fun acc b => acc * 256 + b) 0

/-- Reversed (reflected) CRC-32 polynomial of the ISO-HDLC parameterisation. -/
def crcPoly : Nat := 0xEDB88320

/-- One bit step of the reflected CRC-32 register update. -/
def crcBit (c : Nat) : Nat :=
  if c % 2 = 1 then (c / 2) ^^^ crcPoly else c / 2

/-- Iterated bit steps of the CRC register. -/
def crcBits : Nat → Nat → Nat
  | 0, c => c
  | k + 1, c => crcBits k (crcBit c)

/-- Absorb one message byte into the CRC register (8 bit steps). -/
def crcByteStep (c b : Nat) : Nat := crcBits 8 (c ^^^ b % 256)

/-- CRC-32/ISO-HDLC checksum (`crc::Crc::<u32>::new(&CRC_32_ISO_HDLC).checksum`):
init `0xFFFFFFFF`, reflected input/output, final xor `0xFFFFFFFF`. -/
def crc32 (msg : List Nat) : Nat :=
  msg.foldl crcByteStep 0xFFFFFFFF ^^^ 0xFFFFFFFF

/-- `ChunkType` (src/chunk_type.rs): a 4-byte tag, the `[u8; 4]` field laid out
as four byte fields. -/
structure ChunkType where
  b0 : Nat
  b1 : Nat
  b2 : Nat
  b3 : Nat
deriving DecidableEq, Repr

/-- `ChunkType::bytes`: returns (a copy of) the owned 4-byte array. -/
def ChunkType.bytes (self : ChunkType) : List Nat :=
  [self.b0, self.b1, self.b2, self.b3]

/-- `ChunkType::is_critical`: bit 5 of byte 0 (computed as `(b >> 5) & 1`) is 0. -/
def ChunkType.is_critical (self : ChunkType) : Bool :=
  decide (self.b0 / 2 ^ 5 % 2 = 0)

/-- `ChunkType::is_public`: bit 5 of byte 1 is 0. -/
def ChunkType.is_public (self : ChunkType) : Bool :=
  decide (self.b1 / 2 ^ 5 % 2 = 0)

/-- `ChunkType::is_reserved_bit_valid`: bit 5 of byte 2 is 0. -/
def ChunkType.is_reserved_bit_valid (self : ChunkType) : Bool :=
  decide (self.b2 / 2 ^ 5 % 2 = 0)

/-- `ChunkType::is_safe_to_copy`: bit 5 of byte 3 is 1. -/
def ChunkType.is_safe_to_copy (self : ChunkType) : Bool :=
  decide (self.b3 / 2 ^ 5 % 2 = 1)

/-- `ChunkType::is_valid`: delegates to `is_reserved_bit_valid`. -/
def ChunkType.is_valid (self : ChunkType) : Bool :=
  self.is_reserved_bit_valid

/-- `ChunkType::is_valid_byte`: the byte is an ASCII letter. -/
def ChunkType.is_valid_byte (byte : Nat) : Bool :=
  isAsciiAlphabetic byte

/-- `<ChunkType as TryFrom<[u8; 4]>>::try_from`: reject the array if any byte
is not an ASCII letter, otherwise store the bytes unmodified. -/
def ChunkType.tryFrom (v0 v1 v2 v3 : Nat) : Except String ChunkType :=
  if [v0, v1, v2, v3].any (fun byte => ! isAsciiAlphabetic byte) then
    Except.error "Value is not valid ascii alphabet"
  else
    Except.ok ⟨v0, v1, v2, v3⟩

/-- `<ChunkType as FromStr>::from_str`: the string (a sequence of Unicode
scalar values) is turned into its UTF-8 bytes; fail if the byte length is not
4; copy the 4 bytes; fail if any character is not an ASCII letter; otherwise
succeed with the copied bytes. -/
def ChunkType.fromStr (s : List Nat) : Except String ChunkType :=
  let bytes := s.flatMap utf8Encode
  if bytes.length ≠ 4 then
    Except.error "input str length is not 4"
  else if s.any (fun c => ! isAsciiAlphabetic c) then
    Except.error "input str has non alphabetic ascii character(s)"
  else
    Except.ok ⟨bytes.getD 0 0, bytes.getD 1 0, bytes.getD 2 0, bytes.getD 3 0⟩

/-- `Chunk` (src/chunk.rs): declared length, type tag, payload, stored CRC. -/
structure Chunk where
  length : Nat
  chunk_type : ChunkType
  data : List Nat
  crc : Nat
deriving DecidableEq, Repr

/-- `Chunk::new`: length is `data.len() as u32` (truncating) and the CRC is
computed over the type-tag bytes followed by the payload bytes. -/
def Chunk.new (chunk_type : ChunkType) (data : List Nat) : Chunk :=
  { length := data.length % 2 ^ 32
    crc := crc32 (chunk_type.bytes ++ data)
    chunk_type := chunk_type
    data := data }

/-- `Chunk::as_bytes`: big-endian length, then the 4 tag bytes, then the
payload, then the big-endian CRC, chained into one buffer. -/
def Chunk.as_bytes (self : Chunk) : List Nat :=
  u32BeBytes self.length ++ self.chunk_type.bytes ++ self.data ++
    u32BeBytes self.crc

/-- Outcome of `Chunk::try_from` distinguishing the value-level `Err` the code
returns (`wrongCrc`, for `Err("Wrong crc".into())`) from a Rust panic
(`panicked`), which aborts instead of returning an error value. -/
inductive ChunkError where
  | panicked (msg : String) : ChunkError
  | wrongCrc : ChunkError
deriving DecidableEq, Repr

/-- `<Chunk as TryFrom<&[u8]>>::try_from`: reads 4 length bytes, 4 type bytes,
`bytes.len() - 12` payload bytes and 4 CRC bytes off an iterator, each of the
three fixed-size reads going through `try_into().unwrap()` and the type bytes
additionally through `ChunkType::try_from(..).unwrap()`.  Every `unwrap` on a
failed conversion is a panic, as is the under-flowing `bytes.len() - 12` when
fewer than 12 bytes are given (debug profile; the release profile wraps and
then panics at the 4-byte CRC conversion instead — a panic either way, modelled
by the single `panicked` branch guarded by `data_len < 12`). -/
def Chunk.tryFrom (bytes : List Nat) : Except ChunkError Chunk :=
  let data_len := bytes.length
  match bytes.take 4 with
  | [_, _, _, _] =>
    match (bytes.drop 4).take 4 with
    | [t0, t1, t2, t3] =>
      match ChunkType.tryFrom t0 t1 t2 t3 with
      | Except.error _ =>
          Except.error (ChunkError.panicked "unwrap on Err: type bytes not ascii alphabetic")
      | Except.ok chunk_type =>
        if data_len < 12 then
          Except.error (ChunkError.panicked "attempt to subtract with overflow")
        else
          let data_bytes := ((bytes.drop 4).drop 4).take (data_len - 12)
          match ((bytes.drop 4).drop 4).drop (data_len - 12) with
          | [c0, c1, c2, c3] =>
            let crc_from_slice := u32FromBeBytes [c0, c1, c2, c3]
            let chunk := Chunk.new chunk_type data_bytes
            if chunk.crc ≠ crc_from_slice then
              Except.error ChunkError.wrongCrc
            else
              Except.ok chunk
          | _ => Except.error (ChunkError.panicked "unwrap on Err: crc slice is not 4 bytes")
    | _ => Except.error (ChunkError.panicked "unwrap on Err: type slice is not 4 bytes")
  | _ => Except.error (ChunkError.panicked "unwrap on Err: length slice is not 4 bytes")

/-- Flip bit `k` of the byte at index `i` of a buffer. -/
def flipBit (l : List Nat) (i k : Nat) : List Nat :=
  l.set i (l.getD i 0 ^^^ 2 ^ k)


/-! ### Arithmetic helper lemmas -/

theorem u32BeBytes_length (n : Nat) : (u32BeBytes n).length = 4 := rfl

theorem u32BeBytes_mem_lt (n : Nat) : ∀ x ∈ u32BeBytes n, x < 256 := by
  intro x hx
  simp [u32BeBytes] at hx
  rcases hx with h | h | h | h <;> omega

theorem u32FromBe_u32Be (n : Nat) (h : n < 2 ^ 32) :
    u32FromBeBytes (u32BeBytes n) = n := by
  simp [u32FromBeBytes, u32BeBytes]
  omega

theorem u32Be_u32FromBe (a b c d : Nat) (ha : a < 256) (hb : b < 256)
    (hc : c < 256) (hd : d < 256) :
    u32BeBytes (u32FromBeBytes [a, b, c, d]) = [a, b, c, d] := by
  simp [u32FromBeBytes, u32BeBytes]
  refine ⟨by omega, by omega, by omega, by omega⟩

theorem u32FromBe_lt (a b c d : Nat) (ha : a < 256) (hb : b < 256)
    (hc : c < 256) (hd : d < 256) : u32FromBeBytes [a, b, c, d] < 2 ^ 32 := by
  simp [u32FromBeBytes]
  omega

theorem u32FromBe_inj4 {a b c d a' b' c' d' : Nat}
    (ha : a < 256) (hb : b < 256) (hc : c < 256) (hd : d < 256)
    (ha' : a' < 256) (hb' : b' < 256) (hc' : c' < 256) (hd' : d' < 256)
    (h : u32FromBeBytes [a, b, c, d] = u32FromBeBytes [a', b', c', d']) :
    a = a' ∧ b = b' ∧ c = c' ∧ d = d' := by
  have e := congrArg u32BeBytes h
  rw [u32Be_u32FromBe a b c d ha hb hc hd,
    u32Be_u32FromBe a' b' c' d' ha' hb' hc' hd'] at e
  simpa using e

theorem xor_right_cancel {x y m : Nat} (h : x ^^^ m = y ^^^ m) : x = y := by
  have h2 := congrArg (fun z => z ^^^ m) h
  simpa [Nat.xor_assoc] using h2

theorem xor_left_cancel {x y m : Nat} (h : m ^^^ x = m ^^^ y) : x = y := by
  have h2 := congrArg (fun z => m ^^^ z) h
  simpa [← Nat.xor_assoc] using h2

theorem xor_pow_ne_self {x k : Nat} : x ^^^ 2 ^ k ≠ x := by
  intro h
  have h0 : x ^^^ 2 ^ k = x ^^^ 0 := by simpa using h
  have := xor_left_cancel h0
  exact absurd this (Nat.pos_iff_ne_zero.mp (Nat.pos_pow_of_pos k (by norm_num)))

theorem alpha_lt_256 {b : Nat} (h : isAsciiAlphabetic b = true) : b < 256 := by
  simp [isAsciiAlphabetic] at h
  omega

/-! ### CRC-32 register lemmas: the register stays below `2 ^ 32` and every
step is injective on that range, so two messages differing in one byte get
different checksums. -/

theorem crcBit_lt {c : Nat} (h : c < 2 ^ 32) : crcBit c < 2 ^ 32 := by
  unfold crcBit
  split
  · exact Nat.xor_lt_two_pow (by omega) (by norm_num [crcPoly])
  · omega

theorem crcBit_inj {c1 c2 : Nat} (h1 : c1 < 2 ^ 32) (h2 : c2 < 2 ^ 32)
    (hne : c1 ≠ c2) : crcBit c1 ≠ crcBit c2 := by
  have hp31 : Nat.testBit crcPoly 31 = true := by decide
  have half1 : c1 / 2 < 2 ^ 31 := by omega
  have half2 : c2 / 2 < 2 ^ 31 := by omega
  intro heq
  unfold crcBit at heq
  rcases eq_or_ne (c1 % 2) 1 with e1 | e1 <;>
    rcases eq_or_ne (c2 % 2) 1 with e2 | e2
  · rw [if_pos e1, if_pos e2] at heq
    exact hne (by have := xor_right_cancel heq; omega)
  · rw [if_pos e1, if_neg e2] at heq
    have t1 : Nat.testBit (c1 / 2 ^^^ crcPoly) 31 = true := by
      rw [Nat.testBit_xor, Nat.testBit_lt_two_pow half1, hp31]
      rfl
    have t2 : Nat.testBit (c2 / 2) 31 = false := Nat.testBit_lt_two_pow half2
    rw [heq, t2] at t1
    cases t1
  · rw [if_neg e1, if_pos e2] at heq
    have t1 : Nat.testBit (c2 / 2 ^^^ crcPoly) 31 = true := by
      rw [Nat.testBit_xor, Nat.testBit_lt_two_pow half2, hp31]
      rfl
    have t2 : Nat.testBit (c1 / 2) 31 = false := Nat.testBit_lt_two_pow half1
    rw [← heq, t2] at t1
    cases t1
  · rw [if_neg e1, if_neg e2] at heq
    exact hne (by omega)

theorem crcBits_lt : ∀ (k : Nat) {c : Nat}, c < 2 ^ 32 → crcBits k c < 2 ^ 32
  | 0, _, h => h
  | k + 1, _, h => crcBits_lt k (crcBit_lt h)

theorem crcBits_inj : ∀ (k : Nat) {c1 c2 : Nat}, c1 < 2 ^ 32 → c2 < 2 ^ 32 →
    c1 ≠ c2 → crcBits k c1 ≠ crcBits k c2
  | 0, _, _, _, _, hne => hne
  | k + 1, _, _, h1, h2, hne =>
      crcBits_inj k (crcBit_lt h1) (crcBit_lt h2) (crcBit_inj h1 h2 hne)

theorem crcByteStep_lt {c : Nat} (b : Nat) (h : c < 2 ^ 32) :
    crcByteStep c b < 2 ^ 32 := by
  unfold crcByteStep
  exact crcBits_lt 8 (Nat.xor_lt_two_pow h (by have := Nat.mod_lt b (show 0 < 256 by norm_num); omega))

theorem crcByteStep_inj {c1 c2 : Nat} (b : Nat) (h1 : c1 < 2 ^ 32)
    (h2 : c2 < 2 ^ 32) (hne : c1 ≠ c2) : crcByteStep c1 b ≠ crcByteStep c2 b := by
  unfold crcByteStep
  have hb : b % 256 < 2 ^ 32 := by have := Nat.mod_lt b (show 0 < 256 by norm_num); omega
  refine crcBits_inj 8 (Nat.xor_lt_two_pow h1 hb) (Nat.xor_lt_two_pow h2 hb) ?_
  intro h
  exact hne (xor_right_cancel h)

theorem foldl_crc_lt : ∀ (l : List Nat) {c : Nat}, c < 2 ^ 32 →
    List.foldl crcByteStep c l < 2 ^ 32
  | [], _, h => h
  | b :: t, _, h => foldl_crc_lt t (crcByteStep_lt b h)

theorem foldl_crc_inj : ∀ (l : List Nat) {c1 c2 : Nat}, c1 < 2 ^ 32 →
    c2 < 2 ^ 32 → c1 ≠ c2 →
    List.foldl crcByteStep c1 l ≠ List.foldl crcByteStep c2 l
  | [], _, _, _, _, hne => hne
  | b :: t, _, _, h1, h2, hne =>
      foldl_crc_inj t (crcByteStep_lt b h1) (crcByteStep_lt b h2)
        (crcByteStep_inj b h1 h2 hne)

theorem crc32_lt (msg : List Nat) : crc32 msg < 2 ^ 32 := by
  unfold crc32
  exact Nat.xor_lt_two_pow (foldl_crc_lt msg (by norm_num)) (by norm_num)

theorem crc32_ne_of_byte_change (pre suf : List Nat) {x y : Nat}
    (hx : x < 256) (hy : y < 256) (hne : x ≠ y) :
    crc32 (pre ++ x :: suf) ≠ crc32 (pre ++ y :: suf) := by
  unfold crc32
  intro h
  have hfold := xor_right_cancel h
  rw [List.foldl_append, List.foldl_append] at hfold
  simp only [List.foldl_cons] at hfold
  have hc : List.foldl crcByteStep 0xFFFFFFFF pre < 2 ^ 32 :=
    foldl_crc_lt pre (by norm_num)
  refine foldl_crc_inj suf (crcByteStep_lt x hc) (crcByteStep_lt y hc) ?_ hfold
  unfold crcByteStep
  have hm : (List.foldl crcByteStep 0xFFFFFFFF pre ^^^ x % 256) ≠
      (List.foldl crcByteStep 0xFFFFFFFF pre ^^^ y % 256) := by
    intro hxy
    exact hne (by
      have := xor_left_cancel hxy
      omega)
  have hb1 : (List.foldl crcByteStep 0xFFFFFFFF pre ^^^ x % 256) < 2 ^ 32 :=
    Nat.xor_lt_two_pow hc (by omega)
  have hb2 : (List.foldl crcByteStep 0xFFFFFFFF pre ^^^ y % 256) < 2 ^ 32 :=
    Nat.xor_lt_two_pow hc (by omega)
  exact crcBits_inj 8 hb1 hb2 hm


/-! ### List helper lemmas -/

theorem exists_four (l : List Nat) (h : l.length = 4) :
    ∃ x0 x1 x2 x3, l = [x0, x1, x2, x3] := by
  cases l with
  | nil => simp at h
  | cons x0 l =>
    cases l with
    | nil => simp at h
    | cons x1 l =>
      cases l with
      | nil => simp at h
      | cons x2 l =>
        cases l with
        | nil => simp at h
        | cons x3 l =>
          cases l with
          | nil => exact ⟨x0, x1, x2, x3, rfl⟩
          | cons x4 l => simp at h

theorem set_eq_take_cons_drop (l : List Nat) (j : Nat) (y : Nat)
    (h : j < l.length) : l.set j y = l.take j ++ y :: l.drop (j + 1) := by
  induction l generalizing j with
  | nil => simp at h
  | cons x t ih =>
    cases j with
    | zero => simp
    | succ j =>
      simp only [List.set_cons_succ, List.take_succ_cons, List.drop_succ_cons,
        List.cons_append]
      rw [ih j (by simpa using Nat.lt_of_succ_lt_succ h)]

theorem eq_take_cons_drop (l : List Nat) (j : Nat) (h : j < l.length) :
    l = l.take j ++ l.getD j 0 :: l.drop (j + 1) := by
  conv_lhs => rw [← List.take_append_drop j l]
  rw [← List.getElem_cons_drop l j h]
  simp [List.getD_eq_getElem?_getD, List.getElem?_eq_getElem h]

theorem getD_append_left {l1 l2 : List Nat} {i : Nat} (h : i < l1.length) :
    (l1 ++ l2).getD i 0 = l1.getD i 0 := by
  simp [List.getD_eq_getElem?_getD, List.getElem?_append_left h]

theorem getD_append_right {l1 l2 : List Nat} {i : Nat} (h : l1.length ≤ i) :
    (l1 ++ l2).getD i 0 = l2.getD (i - l1.length) 0 := by
  simp [List.getD_eq_getElem?_getD, List.getElem?_append_right h]

theorem flipBit_append_left {l1 l2 : List Nat} {i : Nat} (k : Nat)
    (h : i < l1.length) :
    flipBit (l1 ++ l2) i k = flipBit l1 i k ++ l2 := by
  unfold flipBit
  rw [getD_append_left h, List.set_append_left _ _ h]

theorem flipBit_append_right {l1 l2 : List Nat} {i : Nat} (k : Nat)
    (h : l1.length ≤ i) :
    flipBit (l1 ++ l2) i k = l1 ++ flipBit l2 (i - l1.length) k := by
  unfold flipBit
  rw [getD_append_right h, List.set_append_right _ _ h]

theorem flipBit_length (l : List Nat) (i k : Nat) :
    (flipBit l i k).length = l.length := by
  simp [flipBit]

/-! ### Characterisations of `ChunkType.tryFrom` -/

theorem chunkType_tryFrom_ok {v0 v1 v2 v3 : Nat}
    (h : [v0, v1, v2, v3].all isAsciiAlphabetic = true) :
    ChunkType.tryFrom v0 v1 v2 v3 = Except.ok ⟨v0, v1, v2, v3⟩ := by
  simp only [List.all_cons, List.all_nil, Bool.and_eq_true, and_true] at h
  simp [ChunkType.tryFrom, h.1, h.2.1, h.2.2]

theorem chunkType_tryFrom_error {v0 v1 v2 v3 : Nat}
    (h : [v0, v1, v2, v3].all isAsciiAlphabetic = false) :
    ChunkType.tryFrom v0 v1 v2 v3 =
      Except.error "Value is not valid ascii alphabet" := by
  unfold ChunkType.tryFrom
  rw [if_pos]
  simp only [List.all_cons, List.all_nil, Bool.and_eq_false_iff] at h
  simp only [List.any_cons, List.any_nil, Bool.or_eq_true, Bool.not_eq_eq_eq_not,
    Bool.not_true]
  rcases h with h | h | h | h | h
  · simp [h]
  · simp [h]
  · simp [h]
  · simp [h]
  · simp at h

theorem chunkType_tryFrom_ok_inv {v0 v1 v2 v3 : Nat} {ct : ChunkType}
    (h : ChunkType.tryFrom v0 v1 v2 v3 = Except.ok ct) :
    ct = ⟨v0, v1, v2, v3⟩ ∧ [v0, v1, v2, v3].all isAsciiAlphabetic = true := by
  rcases hall : [v0, v1, v2, v3].all isAsciiAlphabetic with hfalse | htrue
  · rw [chunkType_tryFrom_error hall] at h
    cases h
  · rw [chunkType_tryFrom_ok hall] at h
    exact ⟨(Except.ok.injEq _ _ ▸ h).symm, rfl⟩

/-! ### The shape of `Chunk.tryFrom` on a decomposed buffer -/

theorem tryFrom_parts (a0 a1 a2 a3 t0 t1 t2 t3 c0 c1 c2 c3 : Nat)
    (data : List Nat) :
    Chunk.tryFrom
        ([a0, a1, a2, a3] ++ [t0, t1, t2, t3] ++ data ++ [c0, c1, c2, c3]) =
      (match ChunkType.tryFrom t0 t1 t2 t3 with
      | Except.error _ =>
          Except.error (ChunkError.panicked "unwrap on Err: type bytes not ascii alphabetic")
      | Except.ok ct =>
          if crc32 (ct.bytes ++ data) ≠ u32FromBeBytes [c0, c1, c2, c3] then
            Except.error ChunkError.wrongCrc
          else Except.ok (Chunk.new ct data)) := by
  have hb : [a0, a1, a2, a3] ++ [t0, t1, t2, t3] ++ data ++ [c0, c1, c2, c3]
      = a0 :: a1 :: a2 :: a3 :: t0 :: t1 :: t2 :: t3 :: (data ++ [c0, c1, c2, c3]) := by
    simp
  rw [hb]
  have htake4 : (a0 :: a1 :: a2 :: a3 :: t0 :: t1 :: t2 :: t3 ::
      (data ++ [c0, c1, c2, c3])).take 4 = [a0, a1, a2, a3] := rfl
  have hdrop4 : (a0 :: a1 :: a2 :: a3 :: t0 :: t1 :: t2 :: t3 ::
      (data ++ [c0, c1, c2, c3])).drop 4
      = t0 :: t1 :: t2 :: t3 :: (data ++ [c0, c1, c2, c3]) := rfl
  have hlen : (a0 :: a1 :: a2 :: a3 :: t0 :: t1 :: t2 :: t3 ::
      (data ++ [c0, c1, c2, c3])).length = 12 + data.length := by
    simp
    omega
  have hnot : ¬ ((a0 :: a1 :: a2 :: a3 :: t0 :: t1 :: t2 :: t3 ::
      (data ++ [c0, c1, c2, c3])).length < 12) := by
    rw [hlen]; omega
  have hsub : (a0 :: a1 :: a2 :: a3 :: t0 :: t1 :: t2 :: t3 ::
      (data ++ [c0, c1, c2, c3])).length - 12 = data.length := by
    rw [hlen]; omega
  have htakedata : (data ++ [c0, c1, c2, c3]).take data.length = data :=
    List.take_left data _
  have hdropdata : (data ++ [c0, c1, c2, c3]).drop data.length = [c0, c1, c2, c3] :=
    List.drop_left data _
  simp only [Chunk.tryFrom, htake4, hdrop4, hsub, if_neg hnot,
    List.take_succ_cons, List.drop_succ_cons, List.take_zero, List.drop_zero,
    htakedata, hdropdata, Chunk.new]

theorem tryFrom_split (A T data Cl : List Nat) (hA : A.length = 4)
    (hT : T.length = 4) (hCl : Cl.length = 4) :
    Chunk.tryFrom (A ++ T ++ data ++ Cl) =
      (match ChunkType.tryFrom (T.getD 0 0) (T.getD 1 0) (T.getD 2 0) (T.getD 3 0) with
      | Except.error _ =>
          Except.error (ChunkError.panicked "unwrap on Err: type bytes not ascii alphabetic")
      | Except.ok ct =>
          if crc32 (ct.bytes ++ data) ≠ u32FromBeBytes Cl then
            Except.error ChunkError.wrongCrc
          else Except.ok (Chunk.new ct data)) := by
  obtain ⟨a0, a1, a2, a3, rfl⟩ := exists_four A hA
  obtain ⟨t0, t1, t2, t3, rfl⟩ := exists_four T hT
  obtain ⟨c0, c1, c2, c3, rfl⟩ := exists_four Cl hCl
  exact tryFrom_parts a0 a1 a2 a3 t0 t1 t2 t3 c0 c1 c2 c3 data

theorem bytes_eq (ct : ChunkType) : ct.bytes = [ct.b0, ct.b1, ct.b2, ct.b3] := rfl

theorem chunk_new_length (ct : ChunkType) (data : List Nat) :
    (Chunk.new ct data).length = data.length % 2 ^ 32 := rfl

/-- Parsing the serialization of a freshly constructed chunk gives the chunk
back, for every ASCII-letter tag and every payload. -/
theorem parse_new (ct : ChunkType) (data : List Nat)
    (hv : ct.bytes.all isAsciiAlphabetic = true) :
    Chunk.tryFrom (Chunk.new ct data).as_bytes = Except.ok (Chunk.new ct data) := by
  have hsplit := tryFrom_split (u32BeBytes (data.length % 2 ^ 32)) ct.bytes
    data (u32BeBytes (crc32 (ct.bytes ++ data))) rfl rfl rfl
  have hok : ChunkType.tryFrom (ct.bytes.getD 0 0) (ct.bytes.getD 1 0)
      (ct.bytes.getD 2 0) (ct.bytes.getD 3 0) = Except.ok ct := by
    rw [bytes_eq] at hv ⊢
    simpa using chunkType_tryFrom_ok hv
  rw [show (Chunk.new ct data).as_bytes
      = u32BeBytes (data.length % 2 ^ 32) ++ ct.bytes ++ data
        ++ u32BeBytes (crc32 (ct.bytes ++ data)) from rfl]
  rw [hsplit, hok]
  rw [u32FromBe_u32Be _ (crc32_lt _)]
  simp [Chunk.new]


/-- Any buffer of at least 12 bytes splits into the 4 length bytes, 4 type
bytes, the middle payload span, and the trailing 4 checksum bytes — the spans
`Chunk.tryFrom` works on. -/
theorem buffer_parts (b : List Nat) (h12 : 12 ≤ b.length) :
    b = b.take 4 ++ (b.drop 4).take 4 ++ (b.drop 8).take (b.length - 12)
        ++ b.drop (b.length - 4)
    ∧ (b.take 4).length = 4
    ∧ ((b.drop 4).take 4).length = 4
    ∧ ((b.drop 8).take (b.length - 12)).length = b.length - 12
    ∧ (b.drop (b.length - 4)).length = 4 := by
  have h8 : (b.drop 4).drop 4 = b.drop 8 := by rw [List.drop_drop]
  have h4' : (b.drop 8).drop (b.length - 12) = b.drop (b.length - 4) := by
    rw [List.drop_drop]
    congr 1
    omega
  have e : b = b.take 4 ++ ((b.drop 4).take 4 ++
      ((b.drop 8).take (b.length - 12) ++ b.drop (b.length - 4))) := by
    rw [← h4', List.take_append_drop, ← h8, List.take_append_drop,
      List.take_append_drop]
  refine ⟨by simpa [List.append_assoc] using e, ?_, ?_, ?_, ?_⟩
  · simp [List.length_take]
    omega
  · simp [List.length_take, List.length_drop]
    omega
  · simp [List.length_take, List.length_drop]
    omega
  · simp [List.length_drop]
    omega

/-- Inversion of a successful parse: the tag construction succeeded on bytes
4..8, the chunk is rebuilt from the tag and the middle span, and the
recomputed checksum equals the stored one. -/
theorem tryFrom_ok_inv (b : List Nat) (c : Chunk) (h12 : 12 ≤ b.length)
    (hok : Chunk.tryFrom b = Except.ok c) :
    ∃ ct, ChunkType.tryFrom (((b.drop 4).take 4).getD 0 0)
        (((b.drop 4).take 4).getD 1 0) (((b.drop 4).take 4).getD 2 0)
        (((b.drop 4).take 4).getD 3 0) = Except.ok ct
      ∧ c = Chunk.new ct ((b.drop 8).take (b.length - 12))
      ∧ crc32 (ct.bytes ++ (b.drop 8).take (b.length - 12))
          = u32FromBeBytes (b.drop (b.length - 4)) := by
  obtain ⟨e, l1, l2, l3, l4⟩ := buffer_parts b h12
  rw [e] at hok
  rw [tryFrom_split _ _ _ _ l1 l2 l4] at hok
  rcases htag : ChunkType.tryFrom (((b.drop 4).take 4).getD 0 0)
      (((b.drop 4).take 4).getD 1 0) (((b.drop 4).take 4).getD 2 0)
      (((b.drop 4).take 4).getD 3 0) with msg | ct
  · rw [htag] at hok
    exact Except.noConfusion hok
  · rw [htag] at hok
    refine ⟨ct, rfl, ?_⟩
    have hok2 : (if crc32 (ct.bytes ++ (b.drop 8).take (b.length - 12))
          ≠ u32FromBeBytes (b.drop (b.length - 4)) then
        Except.error ChunkError.wrongCrc
      else Except.ok (Chunk.new ct ((b.drop 8).take (b.length - 12))))
        = Except.ok c := hok
    by_cases hcrc : crc32 (ct.bytes ++ (b.drop 8).take (b.length - 12))
        = u32FromBeBytes (b.drop (b.length - 4))
    · rw [if_neg (fun hn => hn hcrc)] at hok2
      injection hok2 with h
      exact ⟨h.symm, hcrc⟩
    · rw [if_pos hcrc] at hok2
      exact Except.noConfusion hok2


theorem two_pow_lt_256 {k : Nat} (hk : k < 8) : 2 ^ k < 256 := by
  interval_cases k <;> norm_num

theorem getD_mem_of_lt (l : List Nat) (j : Nat) (h : j < l.length) :
    l.getD j 0 ∈ l := by
  rw [List.getD_eq_getElem?_getD, List.getElem?_eq_getElem h]
  exact List.getElem_mem h

theorem tryFrom_bytes_getD (ct : ChunkType)
    (hv : ct.bytes.all isAsciiAlphabetic = true) :
    ChunkType.tryFrom (ct.bytes.getD 0 0) (ct.bytes.getD 1 0)
      (ct.bytes.getD 2 0) (ct.bytes.getD 3 0) = Except.ok ct := by
  rw [bytes_eq] at hv
  simpa using chunkType_tryFrom_ok hv

/-- A buffer with any 4-byte header, a valid tag, a payload and the matching
checksum parses to the reconstructed chunk: the header is never checked. -/
theorem parse_with_header (A : List Nat) (ct : ChunkType) (data : List Nat)
    (hA : A.length = 4) (hv : ct.bytes.all isAsciiAlphabetic = true) :
    Chunk.tryFrom (A ++ ct.bytes ++ data ++ u32BeBytes (crc32 (ct.bytes ++ data)))
      = Except.ok (Chunk.new ct data) := by
  rw [tryFrom_split A ct.bytes data (u32BeBytes (crc32 (ct.bytes ++ data))) hA rfl
      rfl,
    tryFrom_bytes_getD ct hv,
    u32FromBe_u32Be _ (crc32_lt _)]
  simp [Chunk.new]

theorem as_bytes_assoc (ct : ChunkType) (data : List Nat) :
    (Chunk.new ct data).as_bytes
      = u32BeBytes (data.length % 2 ^ 32)
        ++ (ct.bytes ++ (data ++ u32BeBytes (crc32 (ct.bytes ++ data)))) := by
  simp [Chunk.as_bytes, Chunk.new, List.append_assoc]

theorem flip_region_len (ct : ChunkType) (data : List Nat) (i k : Nat)
    (hi : i < 4) :
    flipBit (Chunk.new ct data).as_bytes i k
      = flipBit (u32BeBytes (data.length % 2 ^ 32)) i k ++ ct.bytes ++ data
        ++ u32BeBytes (crc32 (ct.bytes ++ data)) := by
  rw [as_bytes_assoc, flipBit_append_left k (by rw [u32BeBytes_length]; exact hi)]
  simp [List.append_assoc]

theorem flip_region_tag (ct : ChunkType) (data : List Nat) (i k : Nat)
    (h4 : 4 ≤ i) (h8 : i < 8) :
    flipBit (Chunk.new ct data).as_bytes i k
      = u32BeBytes (data.length % 2 ^ 32) ++ flipBit ct.bytes (i - 4) k ++ data
        ++ u32BeBytes (crc32 (ct.bytes ++ data)) := by
  rw [as_bytes_assoc, flipBit_append_right k (by rw [u32BeBytes_length]; exact h4),
    u32BeBytes_length,
    flipBit_append_left k (show i - 4 < ct.bytes.length by rw [bytes_eq]; simp; omega)]
  simp [List.append_assoc]

theorem flip_region_payload (ct : ChunkType) (data : List Nat) (i k : Nat)
    (h8 : 8 ≤ i) (hp : i < 8 + data.length) :
    flipBit (Chunk.new ct data).as_bytes i k
      = u32BeBytes (data.length % 2 ^ 32) ++ ct.bytes ++ flipBit data (i - 8) k
        ++ u32BeBytes (crc32 (ct.bytes ++ data)) := by
  rw [as_bytes_assoc, flipBit_append_right k (by rw [u32BeBytes_length]; omega),
    u32BeBytes_length,
    flipBit_append_right k (show ct.bytes.length ≤ i - 4 by rw [bytes_eq]; simp; omega),
    show ct.bytes.length = 4 from rfl,
    flipBit_append_left k (show i - 4 - 4 < data.length by omega),
    show i - 4 - 4 = i - 8 from by omega]
  simp [List.append_assoc]

theorem flip_region_crc (ct : ChunkType) (data : List Nat) (i k : Nat)
    (hc : 8 + data.length ≤ i) :
    flipBit (Chunk.new ct data).as_bytes i k
      = u32BeBytes (data.length % 2 ^ 32) ++ ct.bytes ++ data
        ++ flipBit (u32BeBytes (crc32 (ct.bytes ++ data))) (i - 8 - data.length) k := by
  rw [as_bytes_assoc, flipBit_append_right k (by rw [u32BeBytes_length]; omega),
    u32BeBytes_length,
    flipBit_append_right k (show ct.bytes.length ≤ i - 4 by rw [bytes_eq]; simp; omega),
    show ct.bytes.length = 4 from rfl,
    flipBit_append_right k (show data.length ≤ i - 4 - 4 by omega),
    show i - 4 - 4 - data.length = i - 8 - data.length from by omega]
  simp [List.append_assoc]

/-- Flipping one bit of a payload byte makes the recomputed checksum differ
from the stored one, so the parse fails with the checksum error. -/
theorem tamper_payload (ct : ChunkType) (data : List Nat) (j k : Nat)
    (hv : ct.bytes.all isAsciiAlphabetic = true)
    (hdata : ∀ x ∈ data, x < 256) (hj : j < data.length) (hk : k < 8) :
    Chunk.tryFrom (u32BeBytes (data.length % 2 ^ 32) ++ ct.bytes
        ++ flipBit data j k ++ u32BeBytes (crc32 (ct.bytes ++ data)))
      = Except.error ChunkError.wrongCrc := by
  rw [tryFrom_split (u32BeBytes (data.length % 2 ^ 32)) ct.bytes (flipBit data j k)
      (u32BeBytes (crc32 (ct.bytes ++ data))) rfl rfl rfl,
    tryFrom_bytes_getD ct hv]
  show (if crc32 (ct.bytes ++ flipBit data j k)
        ≠ u32FromBeBytes (u32BeBytes (crc32 (ct.bytes ++ data))) then
      Except.error ChunkError.wrongCrc
    else Except.ok (Chunk.new ct (flipBit data j k)))
      = Except.error ChunkError.wrongCrc
  rw [u32FromBe_u32Be _ (crc32_lt _)]
  rw [if_pos ?hne]
  case hne =>
    have hd : data.getD j 0 < 256 := hdata _ (getD_mem_of_lt data j hj)
    have hd' : data.getD j 0 ^^^ 2 ^ k < 256 :=
      Nat.xor_lt_two_pow (n := 8) hd (two_pow_lt_256 hk)
    have key := crc32_ne_of_byte_change (ct.bytes ++ data.take j)
      (data.drop (j + 1)) hd' hd xor_pow_ne_self
    have e1 : ct.bytes ++ flipBit data j k
        = (ct.bytes ++ data.take j) ++ (data.getD j 0 ^^^ 2 ^ k)
            :: data.drop (j + 1) := by
      unfold flipBit
      rw [set_eq_take_cons_drop data j _ hj, List.append_assoc]
    have e2 : ct.bytes ++ data
        = (ct.bytes ++ data.take j) ++ data.getD j 0 :: data.drop (j + 1) := by
      conv_lhs => rw [eq_take_cons_drop data j hj]
      rw [List.append_assoc]
    rw [e1, e2]
    exact key


/-- Flipping one bit of a type-tag byte makes the parse fail: with the
checksum error when the byte is still an ASCII letter, and with the
`unwrap`-panic of the tag constructor when it is not. -/
theorem tamper_tag (ct : ChunkType) (data : List Nat) (j k : Nat)
    (hv : ct.bytes.all isAsciiAlphabetic = true) (hj : j < 4) (hk : k < 8) :
    Chunk.tryFrom (u32BeBytes (data.length % 2 ^ 32) ++ flipBit ct.bytes j k
        ++ data ++ u32BeBytes (crc32 (ct.bytes ++ data)))
      = Except.error ChunkError.wrongCrc
    ∨ Chunk.tryFrom (u32BeBytes (data.length % 2 ^ 32) ++ flipBit ct.bytes j k
        ++ data ++ u32BeBytes (crc32 (ct.bytes ++ data)))
      = Except.error
          (ChunkError.panicked "unwrap on Err: type bytes not ascii alphabetic") := by
  have hv4 : isAsciiAlphabetic ct.b0 = true ∧ isAsciiAlphabetic ct.b1 = true
      ∧ isAsciiAlphabetic ct.b2 = true ∧ isAsciiAlphabetic ct.b3 = true := by
    rw [bytes_eq] at hv
    simpa using hv
  interval_cases j
  · rw [show flipBit ct.bytes 0 k
        = [ct.b0 ^^^ 2 ^ k, ct.b1, ct.b2, ct.b3] from rfl,
      tryFrom_split (u32BeBytes (data.length % 2 ^ 32))
        [ct.b0 ^^^ 2 ^ k, ct.b1, ct.b2, ct.b3] data
        (u32BeBytes (crc32 (ct.bytes ++ data))) rfl rfl rfl]
    simp only [List.getD_cons_zero, List.getD_cons_succ]
    rcases hall : ([ct.b0 ^^^ 2 ^ k, ct.b1, ct.b2, ct.b3].all isAsciiAlphabetic)
      with _ | _
    · right
      rw [chunkType_tryFrom_error hall]
    · left
      rw [chunkType_tryFrom_ok hall]
      show (if crc32 ([ct.b0 ^^^ 2 ^ k, ct.b1, ct.b2, ct.b3] ++ data)
            ≠ u32FromBeBytes (u32BeBytes (crc32 (ct.bytes ++ data))) then
          Except.error ChunkError.wrongCrc
        else Except.ok (Chunk.new ⟨ct.b0 ^^^ 2 ^ k, ct.b1, ct.b2, ct.b3⟩ data))
          = Except.error ChunkError.wrongCrc
      rw [u32FromBe_u32Be _ (crc32_lt _)]
      rw [if_pos ?hne0]
      case hne0 =>
        have key := crc32_ne_of_byte_change ([] : List Nat)
          (ct.b1 :: ct.b2 :: ct.b3 :: data)
          (Nat.xor_lt_two_pow (n := 8) (alpha_lt_256 hv4.1) (two_pow_lt_256 hk))
          (alpha_lt_256 hv4.1) xor_pow_ne_self
        simpa [bytes_eq] using key
  · rw [show flipBit ct.bytes 1 k
        = [ct.b0, ct.b1 ^^^ 2 ^ k, ct.b2, ct.b3] from rfl,
      tryFrom_split (u32BeBytes (data.length % 2 ^ 32))
        [ct.b0, ct.b1 ^^^ 2 ^ k, ct.b2, ct.b3] data
        (u32BeBytes (crc32 (ct.bytes ++ data))) rfl rfl rfl]
    simp only [List.getD_cons_zero, List.getD_cons_succ]
    rcases hall : ([ct.b0, ct.b1 ^^^ 2 ^ k, ct.b2, ct.b3].all isAsciiAlphabetic)
      with _ | _
    · right
      rw [chunkType_tryFrom_error hall]
    · left
      rw [chunkType_tryFrom_ok hall]
      show (if crc32 ([ct.b0, ct.b1 ^^^ 2 ^ k, ct.b2, ct.b3] ++ data)
            ≠ u32FromBeBytes (u32BeBytes (crc32 (ct.bytes ++ data))) then
          Except.error ChunkError.wrongCrc
        else Except.ok (Chunk.new ⟨ct.b0, ct.b1 ^^^ 2 ^ k, ct.b2, ct.b3⟩ data))
          = Except.error ChunkError.wrongCrc
      rw [u32FromBe_u32Be _ (crc32_lt _)]
      rw [if_pos ?hne1]
      case hne1 =>
        have key := crc32_ne_of_byte_change [ct.b0]
          (ct.b2 :: ct.b3 :: data)
          (Nat.xor_lt_two_pow (n := 8) (alpha_lt_256 hv4.2.1) (two_pow_lt_256 hk))
          (alpha_lt_256 hv4.2.1) xor_pow_ne_self
        simpa [bytes_eq] using key
  · rw [show flipBit ct.bytes 2 k
        = [ct.b0, ct.b1, ct.b2 ^^^ 2 ^ k, ct.b3] from rfl,
      tryFrom_split (u32BeBytes (data.length % 2 ^ 32))
        [ct.b0, ct.b1, ct.b2 ^^^ 2 ^ k, ct.b3] data
        (u32BeBytes (crc32 (ct.bytes ++ data))) rfl rfl rfl]
    simp only [List.getD_cons_zero, List.getD_cons_succ]
    rcases hall : ([ct.b0, ct.b1, ct.b2 ^^^ 2 ^ k, ct.b3].all isAsciiAlphabetic)
      with _ | _
    · right
      rw [chunkType_tryFrom_error hall]
    · left
      rw [chunkType_tryFrom_ok hall]
      show (if crc32 ([ct.b0, ct.b1, ct.b2 ^^^ 2 ^ k, ct.b3] ++ data)
            ≠ u32FromBeBytes (u32BeBytes (crc32 (ct.bytes ++ data))) then
          Except.error ChunkError.wrongCrc
        else Except.ok (Chunk.new ⟨ct.b0, ct.b1, ct.b2 ^^^ 2 ^ k, ct.b3⟩ data))
          = Except.error ChunkError.wrongCrc
      rw [u32FromBe_u32Be _ (crc32_lt _)]
      rw [if_pos ?hne2]
      case hne2 =>
        have key := crc32_ne_of_byte_change [ct.b0, ct.b1]
          (ct.b3 :: data)
          (Nat.xor_lt_two_pow (n := 8) (alpha_lt_256 hv4.2.2.1) (two_pow_lt_256 hk))
          (alpha_lt_256 hv4.2.2.1) xor_pow_ne_self
        simpa [bytes_eq] using key
  · rw [show flipBit ct.bytes 3 k
        = [ct.b0, ct.b1, ct.b2, ct.b3 ^^^ 2 ^ k] from rfl,
      tryFrom_split (u32BeBytes (data.length % 2 ^ 32))
        [ct.b0, ct.b1, ct.b2, ct.b3 ^^^ 2 ^ k] data
        (u32BeBytes (crc32 (ct.bytes ++ data))) rfl rfl rfl]
    simp only [List.getD_cons_zero, List.getD_cons_succ]
    rcases hall : ([ct.b0, ct.b1, ct.b2, ct.b3 ^^^ 2 ^ k].all isAsciiAlphabetic)
      with _ | _
    · right
      rw [chunkType_tryFrom_error hall]
    · left
      rw [chunkType_tryFrom_ok hall]
      show (if crc32 ([ct.b0, ct.b1, ct.b2, ct.b3 ^^^ 2 ^ k] ++ data)
            ≠ u32FromBeBytes (u32BeBytes (crc32 (ct.bytes ++ data))) then
          Except.error ChunkError.wrongCrc
        else Except.ok (Chunk.new ⟨ct.b0, ct.b1, ct.b2, ct.b3 ^^^ 2 ^ k⟩ data))
          = Except.error ChunkError.wrongCrc
      rw [u32FromBe_u32Be _ (crc32_lt _)]
      rw [if_pos ?hne3]
      case hne3 =>
        have key := crc32_ne_of_byte_change [ct.b0, ct.b1, ct.b2] data
          (Nat.xor_lt_two_pow (n := 8) (alpha_lt_256 hv4.2.2.2) (two_pow_lt_256 hk))
          (alpha_lt_256 hv4.2.2.2) xor_pow_ne_self
        simpa [bytes_eq] using key


/-- Flipping one bit of a stored-checksum byte changes the stored value while
the recomputed checksum stays the same, so the parse fails with the checksum
error. -/
theorem tamper_crc (ct : ChunkType) (data : List Nat) (j k : Nat)
    (hv : ct.bytes.all isAsciiAlphabetic = true) (hj : j < 4) (hk : k < 8) :
    Chunk.tryFrom (u32BeBytes (data.length % 2 ^ 32) ++ ct.bytes ++ data
        ++ flipBit (u32BeBytes (crc32 (ct.bytes ++ data))) j k)
      = Except.error ChunkError.wrongCrc := by
  have hlen : (flipBit (u32BeBytes (crc32 (ct.bytes ++ data))) j k).length = 4 := by
    rw [flipBit_length]
    rfl
  rw [tryFrom_split (u32BeBytes (data.length % 2 ^ 32)) ct.bytes data
      (flipBit (u32BeBytes (crc32 (ct.bytes ++ data))) j k) rfl rfl hlen,
    tryFrom_bytes_getD ct hv]
  show (if crc32 (ct.bytes ++ data)
        ≠ u32FromBeBytes (flipBit (u32BeBytes (crc32 (ct.bytes ++ data))) j k) then
      Except.error ChunkError.wrongCrc
    else Except.ok (Chunk.new ct data)) = Except.error ChunkError.wrongCrc
  rw [if_pos ?hne]
  case hne =>
    have hVlt := crc32_lt (ct.bytes ++ data)
    have hV2 : u32FromBeBytes [crc32 (ct.bytes ++ data) / 2 ^ 24 % 256,
        crc32 (ct.bytes ++ data) / 2 ^ 16 % 256,
        crc32 (ct.bytes ++ data) / 2 ^ 8 % 256, crc32 (ct.bytes ++ data) % 256]
        = crc32 (ct.bytes ++ data) := u32FromBe_u32Be _ hVlt
    have e0 : crc32 (ct.bytes ++ data) / 2 ^ 24 % 256 < 256 :=
      Nat.mod_lt _ (by norm_num)
    have e1 : crc32 (ct.bytes ++ data) / 2 ^ 16 % 256 < 256 :=
      Nat.mod_lt _ (by norm_num)
    have e2 : crc32 (ct.bytes ++ data) / 2 ^ 8 % 256 < 256 :=
      Nat.mod_lt _ (by norm_num)
    have e3 : crc32 (ct.bytes ++ data) % 256 < 256 := Nat.mod_lt _ (by norm_num)
    intro heq
    interval_cases j
    · rw [show flipBit (u32BeBytes (crc32 (ct.bytes ++ data))) 0 k
          = [crc32 (ct.bytes ++ data) / 2 ^ 24 % 256 ^^^ 2 ^ k,
             crc32 (ct.bytes ++ data) / 2 ^ 16 % 256,
             crc32 (ct.bytes ++ data) / 2 ^ 8 % 256,
             crc32 (ct.bytes ++ data) % 256] from rfl] at heq
      have h3 := u32FromBe_inj4
        (Nat.xor_lt_two_pow (n := 8) e0 (two_pow_lt_256 hk)) e1 e2 e3
        e0 e1 e2 e3 (heq.symm.trans hV2.symm)
      exact xor_pow_ne_self h3.1
    · rw [show flipBit (u32BeBytes (crc32 (ct.bytes ++ data))) 1 k
          = [crc32 (ct.bytes ++ data) / 2 ^ 24 % 256,
             crc32 (ct.bytes ++ data) / 2 ^ 16 % 256 ^^^ 2 ^ k,
             crc32 (ct.bytes ++ data) / 2 ^ 8 % 256,
             crc32 (ct.bytes ++ data) % 256] from rfl] at heq
      have h3 := u32FromBe_inj4
        e0 (Nat.xor_lt_two_pow (n := 8) e1 (two_pow_lt_256 hk)) e2 e3
        e0 e1 e2 e3 (heq.symm.trans hV2.symm)
      exact xor_pow_ne_self h3.2.1
    · rw [show flipBit (u32BeBytes (crc32 (ct.bytes ++ data))) 2 k
          = [crc32 (ct.bytes ++ data) / 2 ^ 24 % 256,
             crc32 (ct.bytes ++ data) / 2 ^ 16 % 256,
             crc32 (ct.bytes ++ data) / 2 ^ 8 % 256 ^^^ 2 ^ k,
             crc32 (ct.bytes ++ data) % 256] from rfl] at heq
      have h3 := u32FromBe_inj4
        e0 e1 (Nat.xor_lt_two_pow (n := 8) e2 (two_pow_lt_256 hk)) e3
        e0 e1 e2 e3 (heq.symm.trans hV2.symm)
      exact xor_pow_ne_self h3.2.2.1
    · rw [show flipBit (u32BeBytes (crc32 (ct.bytes ++ data))) 3 k
          = [crc32 (ct.bytes ++ data) / 2 ^ 24 % 256,
             crc32 (ct.bytes ++ data) / 2 ^ 16 % 256,
             crc32 (ct.bytes ++ data) / 2 ^ 8 % 256,
             crc32 (ct.bytes ++ data) % 256 ^^^ 2 ^ k] from rfl] at heq
      have h3 := u32FromBe_inj4
        e0 e1 e2 (Nat.xor_lt_two_pow (n := 8) e3 (two_pow_lt_256 hk))
        e0 e1 e2 e3 (heq.symm.trans hV2.symm)
      exact xor_pow_ne_self h3.2.2.2


theorem utf8Encode_ascii {c : Nat} (h : isAsciiAlphabetic c = true) :
    utf8Encode c = [c] := by
  have hc : c < 128 := by
    simp [isAsciiAlphabetic] at h
    omega
  unfold utf8Encode
  rw [if_pos hc]

theorem flatMap_utf8_id (s : List Nat) (hall : s.all isAsciiAlphabetic = true) :
    s.flatMap utf8Encode = s := by
  induction s with
  | nil => rfl
  | cons c t ih =>
    simp only [List.all_cons, Bool.and_eq_true] at hall
    simp [List.flatMap_cons, utf8Encode_ascii hall.1, ih hall.2]

theorem and32_eq (b : Nat) : b &&& 32 = b / 2 ^ 5 % 2 * 32 := by
  calc b &&& 32 = b &&& 2 ^ 5 := by norm_num
    _ = (b.testBit 5).toNat * 2 ^ 5 := Nat.and_two_pow b 5
    _ = b / 2 ^ 5 % 2 * 2 ^ 5 := by rw [Nat.toNat_testBit]
    _ = b / 2 ^ 5 % 2 * 32 := by norm_num


/-! ### Claim theorems -/

/-- C1: for every ChunkType tag whose 4 bytes are ASCII letters and every
payload byte sequence (including empty), parsing the serialization of the
chunk constructed from that tag and payload succeeds and returns a chunk
equal to the constructed one — hence with the same length, type-tag bytes,
payload bytes and CRC. -/
theorem roundtrip_parse_serialize (ct : ChunkType) (data : List Nat)
    (hv : ct.bytes.all isAsciiAlphabetic = true)
    (hdata : ∀ x ∈ data, x < 256) :
    Chunk.tryFrom (Chunk.new ct data).as_bytes = Except.ok (Chunk.new ct data) :=
  parse_new ct data hv

theorem roundtrip_parse_serialize_witness :
    Chunk.tryFrom (Chunk.new ⟨82, 117, 83, 116⟩ [1, 2, 3]).as_bytes
      = Except.ok (Chunk.new ⟨82, 117, 83, 116⟩ [1, 2, 3]) :=
  roundtrip_parse_serialize ⟨82, 117, 83, 116⟩ [1, 2, 3] (by decide) (by decide)

/-- C2: against the claim that all core operations return value-level errors
on malformed input, `Chunk::try_from` panics — modelled by the `panicked`
error constructor, reached through `unwrap` on a failed conversion — on an
empty buffer and on a 12-byte buffer whose type bytes are ASCII digits
("1111"). -/
theorem parse_panics_on_malformed :
    Chunk.tryFrom []
      = Except.error (ChunkError.panicked "unwrap on Err: length slice is not 4 bytes")
    ∧ Chunk.tryFrom [0, 0, 0, 0, 49, 49, 49, 49, 0, 0, 0, 0]
      = Except.error
          (ChunkError.panicked "unwrap on Err: type bytes not ascii alphabetic") :=
  ⟨rfl, rfl⟩

/-- C3: a buffer shorter than 12 bytes never yields a value-level error as
the claim states; every such parse panics (failed 4-byte conversions for
lengths 0–7, the under-flowing `bytes.len() - 12`, or the failed CRC slice
conversion, for lengths 8–11). -/
theorem short_buffer_panics (bytes : List Nat) (h : bytes.length < 12) :
    ∃ m, Chunk.tryFrom bytes = Except.error (ChunkError.panicked m) := by
  unfold Chunk.tryFrom
  split
  · split
    · split
      · exact ⟨_, rfl⟩
      · rw [if_pos h]
        exact ⟨_, rfl⟩
    · exact ⟨_, rfl⟩
  · exact ⟨_, rfl⟩

theorem short_buffer_panics_witness :
    ([5] : List Nat).length < 12
    ∧ ∃ m, Chunk.tryFrom [5] = Except.error (ChunkError.panicked m) :=
  ⟨by decide, short_buffer_panics [5] (by decide)⟩

/-- C5 counterexample: flipping bit 7 of byte 4 (the first type-tag byte) of
the valid serialized chunk with tag "RuSt" and empty payload makes re-parsing
panic in the tag constructor's `unwrap` — it does not fail with one of the
value-level errors, as the claim states. -/
theorem tag_flip_panic_cex :
    Chunk.tryFrom (flipBit (Chunk.new ⟨82, 117, 83, 116⟩ []).as_bytes 4 7)
      = Except.error
          (ChunkError.panicked "unwrap on Err: type bytes not ascii alphabetic") := rfl

/-- C5 (amended): for a validly serialized chunk, flipping any single bit in
the type-tag region fails re-parsing, either with the checksum-mismatch error
value or with the tag constructor's unwrap panic; a flip in the payload or
stored-checksum region fails with the checksum-mismatch error value; a flip
confined to the 4-byte length field is not detected and re-parsing still
succeeds with the original chunk. -/
theorem tamper_detection (ct : ChunkType) (data : List Nat) (i k : Nat)
    (hv : ct.bytes.all isAsciiAlphabetic = true)
    (hdata : ∀ x ∈ data, x < 256)
    (hi : i < 12 + data.length) (hk : k < 8) :
    (i < 4 → Chunk.tryFrom (flipBit (Chunk.new ct data).as_bytes i k)
        = Except.ok (Chunk.new ct data))
    ∧ (4 ≤ i → i < 8 →
        Chunk.tryFrom (flipBit (Chunk.new ct data).as_bytes i k)
            = Except.error ChunkError.wrongCrc
        ∨ Chunk.tryFrom (flipBit (Chunk.new ct data).as_bytes i k)
            = Except.error
                (ChunkError.panicked "unwrap on Err: type bytes not ascii alphabetic"))
    ∧ (8 ≤ i → Chunk.tryFrom (flipBit (Chunk.new ct data).as_bytes i k)
        = Except.error ChunkError.wrongCrc) := by
  refine ⟨?_, ?_, ?_⟩
  · intro h4
    rw [flip_region_len ct data i k h4]
    exact parse_with_header _ ct data (by rw [flipBit_length]; rfl) hv
  · intro h4 h8
    rw [flip_region_tag ct data i k h4 h8]
    exact tamper_tag ct data (i - 4) k hv (by omega) hk
  · intro h8
    by_cases hp : i < 8 + data.length
    · rw [flip_region_payload ct data i k h8 hp]
      exact tamper_payload ct data (i - 8) k hv hdata (by omega) hk
    · rw [flip_region_crc ct data i k (by omega)]
      exact tamper_crc ct data (i - 8 - data.length) k hv (by omega) hk

theorem tamper_detection_witness :
    Chunk.tryFrom (flipBit (Chunk.new ⟨82, 117, 83, 116⟩ [7]).as_bytes 9 0)
      = Except.error ChunkError.wrongCrc :=
  (tamper_detection ⟨82, 117, 83, 116⟩ [7] 9 0 (by decide) (by decide)
    (by norm_num) (by norm_num)).2.2 (by norm_num)


/-- C4: on any buffer on which parsing reaches the checksum comparison (at
least 12 bytes, and the tag construction on bytes 4..8 succeeded), the parse
fails — returning only the checksum error, no chunk — exactly when the CRC-32
recomputed over the tag bytes and the extracted payload differs from the
big-endian stored checksum in the last 4 bytes; when they agree the verified
chunk is returned. -/
theorem checksum_gate (b : List Nat) (ct : ChunkType) (h12 : 12 ≤ b.length)
    (hct : ChunkType.tryFrom (((b.drop 4).take 4).getD 0 0)
        (((b.drop 4).take 4).getD 1 0) (((b.drop 4).take 4).getD 2 0)
        (((b.drop 4).take 4).getD 3 0) = Except.ok ct) :
    (crc32 (ct.bytes ++ (b.drop 8).take (b.length - 12))
        ≠ u32FromBeBytes (b.drop (b.length - 4)) →
      Chunk.tryFrom b = Except.error ChunkError.wrongCrc)
    ∧ (crc32 (ct.bytes ++ (b.drop 8).take (b.length - 12))
        = u32FromBeBytes (b.drop (b.length - 4)) →
      Chunk.tryFrom b
        = Except.ok (Chunk.new ct ((b.drop 8).take (b.length - 12)))) := by
  obtain ⟨e, l1, l2, l3, l4⟩ := buffer_parts b h12
  constructor
  · intro hne
    conv_lhs => rw [e]
    rw [tryFrom_split _ _ _ _ l1 l2 l4, hct]
    show (if crc32 (ct.bytes ++ (b.drop 8).take (b.length - 12))
          ≠ u32FromBeBytes (b.drop (b.length - 4)) then
        Except.error ChunkError.wrongCrc
      else Except.ok (Chunk.new ct ((b.drop 8).take (b.length - 12))))
        = Except.error ChunkError.wrongCrc
    rw [if_pos hne]
  · intro heq
    conv_lhs => rw [e]
    rw [tryFrom_split _ _ _ _ l1 l2 l4, hct]
    show (if crc32 (ct.bytes ++ (b.drop 8).take (b.length - 12))
          ≠ u32FromBeBytes (b.drop (b.length - 4)) then
        Except.error ChunkError.wrongCrc
      else Except.ok (Chunk.new ct ((b.drop 8).take (b.length - 12))))
        = Except.ok (Chunk.new ct ((b.drop 8).take (b.length - 12)))
    rw [if_neg (fun hn => hn heq)]

set_option maxRecDepth 10000 in
theorem checksum_gate_witness :
    Chunk.tryFrom (Chunk.new ⟨82, 117, 83, 116⟩ [5]).as_bytes
      = Except.ok (Chunk.new ⟨82, 117, 83, 116⟩
          (((Chunk.new ⟨82, 117, 83, 116⟩ [5]).as_bytes.drop 8).take
            ((Chunk.new ⟨82, 117, 83, 116⟩ [5]).as_bytes.length - 12))) :=
  (checksum_gate (Chunk.new ⟨82, 117, 83, 116⟩ [5]).as_bytes ⟨82, 117, 83, 116⟩
    (by decide) (by rfl)).2 (by rfl)

/-- C6: constructing a ChunkType from a 4-byte array succeeds exactly when
every byte is an ASCII letter, and then the stored bytes (as returned by the
bytes accessor) are exactly the input bytes, case preserved; otherwise the
fixed invalid-bytes error is returned. -/
theorem chunk_type_from_bytes_spec (v0 v1 v2 v3 : Nat)
    (h0 : v0 < 256) (h1 : v1 < 256) (h2 : v2 < 256) (h3 : v3 < 256) :
    ((∃ ct, ChunkType.tryFrom v0 v1 v2 v3 = Except.ok ct
        ∧ ct.bytes = [v0, v1, v2, v3])
      ↔ [v0, v1, v2, v3].all isAsciiAlphabetic = true)
    ∧ ([v0, v1, v2, v3].all isAsciiAlphabetic = false →
        ChunkType.tryFrom v0 v1 v2 v3
          = Except.error "Value is not valid ascii alphabet") := by
  constructor
  · constructor
    · rintro ⟨ct, hok, hbytes⟩
      exact (chunkType_tryFrom_ok_inv hok).2
    · intro hall
      exact ⟨⟨v0, v1, v2, v3⟩, chunkType_tryFrom_ok hall, rfl⟩
  · exact chunkType_tryFrom_error

theorem chunk_type_from_bytes_spec_witness :
    ∃ ct, ChunkType.tryFrom 82 117 83 116 = Except.ok ct
      ∧ ct.bytes = [82, 117, 83, 116] :=
  (chunk_type_from_bytes_spec 82 117 83 116 (by decide) (by decide) (by decide)
    (by decide)).1.mpr (by decide)

/-- C7 counterexample: the two-character string "¡¡" (code points 161, 161,
UTF-8 bytes 194,161,194,161) is not 4 characters, yet `from_str` does not
fail with the length-class error the claim requires for it: the code checks
the UTF-8 byte length, which is 4, and fails with the character error
instead. -/
theorem from_str_char_count_cex :
    ([161, 161] : List Nat).length ≠ 4
    ∧ ChunkType.fromStr [161, 161]
        = Except.error "input str has non alphabetic ascii character(s)" :=
  ⟨by decide, rfl⟩

/-- C7 (amended): `from_str` fails with the length error unless the string's
UTF-8 byte length is exactly 4; with 4 bytes it fails with the character
error if any character is not an ASCII letter; otherwise it succeeds, the 4
bytes are the 4 characters themselves, and the result coincides with the
byte constructor applied to them. -/
theorem from_str_spec (s : List Nat) (hs : ∀ c ∈ s, c < 1114112) :
    ((s.flatMap utf8Encode).length ≠ 4 →
      ChunkType.fromStr s = Except.error "input str length is not 4")
    ∧ ((s.flatMap utf8Encode).length = 4 →
        (s.any (fun c => ! isAsciiAlphabetic c) = true →
          ChunkType.fromStr s
            = Except.error "input str has non alphabetic ascii character(s)")
        ∧ (s.all isAsciiAlphabetic = true →
            ∃ a b c d, s.flatMap utf8Encode = [a, b, c, d]
              ∧ ChunkType.fromStr s = Except.ok ⟨a, b, c, d⟩
              ∧ ChunkType.tryFrom a b c d = Except.ok ⟨a, b, c, d⟩)) := by
  refine ⟨?_, ?_⟩
  · intro h
    unfold ChunkType.fromStr
    rw [if_pos h]
  · intro h4
    constructor
    · intro hany
      unfold ChunkType.fromStr
      rw [if_neg (fun hn => hn h4), if_pos hany]
    · intro hall
      have hid : s.flatMap utf8Encode = s := flatMap_utf8_id s hall
      obtain ⟨a, b, c, d, hs4⟩ := exists_four s (by rw [← hid]; exact h4)
      subst hs4
      have hid4 : ([a, b, c, d] : List Nat).flatMap utf8Encode = [a, b, c, d] := hid
      refine ⟨a, b, c, d, hid4, ?_, ?_⟩
      · unfold ChunkType.fromStr
        rw [hid4]
        rw [if_neg (by norm_num)]
        rw [if_neg ?hnoany]
        case hnoany =>
          intro hc
          simp only [List.any_cons, List.any_nil, Bool.or_eq_true,
            Bool.not_eq_eq_eq_not, Bool.not_true] at hc
          simp only [List.all_cons, List.all_nil, Bool.and_eq_true, and_true] at hall
          rcases hc with hc | hc | hc | hc | hc
          · rw [hall.1] at hc
            cases hc
          · rw [hall.2.1] at hc
            cases hc
          · rw [hall.2.2.1] at hc
            cases hc
          · rw [hall.2.2.2] at hc
            cases hc
          · cases hc
        rfl
      · exact chunkType_tryFrom_ok hall

theorem from_str_spec_witness :
    ∃ a b c d, ([82, 117, 83, 116] : List Nat).flatMap utf8Encode = [a, b, c, d]
      ∧ ChunkType.fromStr [82, 117, 83, 116] = Except.ok ⟨a, b, c, d⟩
      ∧ ChunkType.tryFrom a b c d = Except.ok ⟨a, b, c, d⟩ :=
  ((from_str_spec [82, 117, 83, 116] (by decide)).2 (by decide)).2 (by decide)

/-- C8: each classification query reads bit 5 (value 0x20) of its byte —
is_critical, is_public and is_reserved_bit_valid hold when it is clear,
is_safe_to_copy when it is set — is_valid coincides with
is_reserved_bit_valid, and on the tags "RuSt" and "Rust" the queries take the
documented values. -/
theorem chunk_type_bit_queries (ct : ChunkType)
    (hv : ct.bytes.all isAsciiAlphabetic = true) :
    (ct.is_critical = true ↔ ct.b0 &&& 32 = 0)
    ∧ (ct.is_public = true ↔ ct.b1 &&& 32 = 0)
    ∧ (ct.is_reserved_bit_valid = true ↔ ct.b2 &&& 32 = 0)
    ∧ (ct.is_safe_to_copy = true ↔ ct.b3 &&& 32 ≠ 0)
    ∧ ct.is_valid = ct.is_reserved_bit_valid
    ∧ (ct = ⟨82, 117, 83, 116⟩ →
        ct.is_critical = true ∧ ct.is_public = false
        ∧ ct.is_reserved_bit_valid = true ∧ ct.is_safe_to_copy = true
        ∧ ct.is_valid = true)
    ∧ (ct = ⟨82, 117, 115, 116⟩ →
        ct.is_reserved_bit_valid = false ∧ ct.is_valid = false) := by
  refine ⟨?_, ?_, ?_, ?_, rfl, ?_, ?_⟩
  · rw [and32_eq]
    simp only [ChunkType.is_critical, decide_eq_true_eq]
    omega
  · rw [and32_eq]
    simp only [ChunkType.is_public, decide_eq_true_eq]
    omega
  · rw [and32_eq]
    simp only [ChunkType.is_reserved_bit_valid, decide_eq_true_eq]
    omega
  · rw [and32_eq]
    simp only [ChunkType.is_safe_to_copy, decide_eq_true_eq]
    omega
  · intro h
    subst h
    decide
  · intro h
    subst h
    decide

theorem chunk_type_bit_queries_witness :
    (ChunkType.mk 82 117 83 116).is_critical = true
    ∧ (ChunkType.mk 82 117 83 116).is_public = false
    ∧ (ChunkType.mk 82 117 83 116).is_reserved_bit_valid = true
    ∧ (ChunkType.mk 82 117 83 116).is_safe_to_copy = true
    ∧ (ChunkType.mk 82 117 83 116).is_valid = true :=
  (chunk_type_bit_queries ⟨82, 117, 83, 116⟩ (by decide)).2.2.2.2.2.1 rfl


/-- C9: serialization is total (a function) and produces exactly the
big-endian length, the 4 tag bytes, the payload bytes and the big-endian CRC,
in that order — equivalently, the byte at each of the four spans of the
12+n-byte output is the corresponding field. -/
theorem as_bytes_layout (c : Chunk) :
    c.as_bytes
      = u32BeBytes c.length ++ c.chunk_type.bytes ++ c.data ++ u32BeBytes c.crc
    ∧ c.as_bytes.length = 12 + c.data.length
    ∧ c.as_bytes.take 4 = u32BeBytes c.length
    ∧ (c.as_bytes.drop 4).take 4 = c.chunk_type.bytes
    ∧ (c.as_bytes.drop 8).take c.data.length = c.data
    ∧ c.as_bytes.drop (8 + c.data.length) = u32BeBytes c.crc := by
  have hassoc : c.as_bytes
      = u32BeBytes c.length
        ++ (c.chunk_type.bytes ++ (c.data ++ u32BeBytes c.crc)) := by
    simp [Chunk.as_bytes, List.append_assoc]
  have hdrop4 : c.as_bytes.drop 4
      = c.chunk_type.bytes ++ (c.data ++ u32BeBytes c.crc) := by
    rw [hassoc]
    exact List.drop_left' rfl
  have hdrop8 : c.as_bytes.drop 8 = c.data ++ u32BeBytes c.crc := by
    rw [show (8 : Nat) = 4 + 4 from rfl, ← List.drop_drop, hdrop4]
    exact List.drop_left' (by rw [bytes_eq]; rfl)
  refine ⟨rfl, ?_, ?_, ?_, ?_, ?_⟩
  · simp [Chunk.as_bytes, u32BeBytes, bytes_eq]
    omega
  · rw [hassoc]
    exact List.take_left' rfl
  · rw [hdrop4]
    exact List.take_left' (by rw [bytes_eq]; rfl)
  · rw [hdrop8]
    exact List.take_left c.data _
  · rw [← List.drop_drop, hdrop8]
    exact List.drop_left c.data _

theorem hv_rust : (ChunkType.mk 82 117 83 116).bytes.all isAsciiAlphabetic = true := by
  decide

theorem len_trunc_parse :
    Chunk.tryFrom (Chunk.new ⟨82, 117, 83, 116⟩ (List.replicate (2 ^ 32) 0)).as_bytes
      = Except.ok (Chunk.new ⟨82, 117, 83, 116⟩ (List.replicate (2 ^ 32) 0)) :=
  parse_new ⟨82, 117, 83, 116⟩ (List.replicate (2 ^ 32) 0) hv_rust

theorem len_trunc_ne :
    (Chunk.new ⟨82, 117, 83, 116⟩ (List.replicate (2 ^ 32) 0)).length
      ≠ (Chunk.new ⟨82, 117, 83, 116⟩
          (List.replicate (2 ^ 32) 0)).as_bytes.length - 12 := by
  have h1 : (Chunk.new ⟨82, 117, 83, 116⟩ (List.replicate (2 ^ 32) 0)).length
      = 0 := by
    rw [chunk_new_length, List.length_replicate, Nat.mod_self]
  have h2 : (Chunk.new ⟨82, 117, 83, 116⟩
      (List.replicate (2 ^ 32) 0)).as_bytes.length = 12 + 2 ^ 32 := by
    rw [as_bytes_assoc, List.length_append, List.length_append,
      List.length_append, u32BeBytes_length, u32BeBytes_length,
      List.length_replicate,
      show (ChunkType.mk 82 117 83 116).bytes.length = 4 from rfl]
    omega
  rw [h1, h2]
  have hpos : (0 : Nat) < 2 ^ 32 := Nat.pos_pow_of_pos 32 (by norm_num)
  omega

/-- C10 counterexample: the valid buffer serializing a 2^32-byte payload
parses successfully, but the returned chunk's length field is
2^32 mod 2^32 = 0, not the buffer length minus 12 (= 2^32): `data.len() as
u32` truncates. -/
theorem length_truncation_cex :
    Chunk.tryFrom (Chunk.new ⟨82, 117, 83, 116⟩ (List.replicate (2 ^ 32) 0)).as_bytes
      = Except.ok (Chunk.new ⟨82, 117, 83, 116⟩ (List.replicate (2 ^ 32) 0))
    ∧ (Chunk.new ⟨82, 117, 83, 116⟩ (List.replicate (2 ^ 32) 0)).length
        ≠ (Chunk.new ⟨82, 117, 83, 116⟩
            (List.replicate (2 ^ 32) 0)).as_bytes.length - 12 :=
  ⟨len_trunc_parse, len_trunc_ne⟩

/-- C10 (amended): on any successful parse of a byte buffer `b`, the chunk's
length field is `(b.len − 12) mod 2^32` (the declared 4-byte prefix is
ignored for framing), the payload is bytes `8..b.len−4`, serializing the
chunk reproduces `b` except that the first 4 bytes become the big-endian
encoding of `(b.len − 12) mod 2^32`, and serialize∘parse is the identity
exactly when the declared length field already equals that value. -/
theorem parse_ignores_declared_length (b : List Nat) (c : Chunk)
    (h256 : ∀ x ∈ b, x < 256) (h12 : 12 ≤ b.length)
    (hok : Chunk.tryFrom b = Except.ok c) :
    c.length = (b.length - 12) % 2 ^ 32
    ∧ c.data = (b.drop 8).take (b.length - 12)
    ∧ c.as_bytes = u32BeBytes ((b.length - 12) % 2 ^ 32) ++ b.drop 4
    ∧ (c.as_bytes = b
        ↔ u32FromBeBytes (b.take 4) = (b.length - 12) % 2 ^ 32) := by
  obtain ⟨e, l1, l2, l3, l4⟩ := buffer_parts b h12
  obtain ⟨ct, htag, hc, hcrc⟩ := tryFrom_ok_inv b c h12 hok
  subst hc
  obtain ⟨t0, t1, t2, t3, hT⟩ := exists_four _ l2
  have hct_eq : ct.bytes = (b.drop 4).take 4 := by
    rw [(chunkType_tryFrom_ok_inv htag).1, bytes_eq, hT]
    simp [List.getD_cons_zero, List.getD_cons_succ]
  obtain ⟨c0, c1, c2, c3, hCl⟩ := exists_four _ l4
  have hClsub : ∀ x ∈ b.drop (b.length - 4), x < 256 := fun x hx =>
    h256 x (List.drop_subset _ _ hx)
  have hBeCl : u32BeBytes (u32FromBeBytes (b.drop (b.length - 4)))
      = b.drop (b.length - 4) := by
    rw [hCl]
    exact u32Be_u32FromBe c0 c1 c2 c3
      (hClsub c0 (by rw [hCl]; simp)) (hClsub c1 (by rw [hCl]; simp))
      (hClsub c2 (by rw [hCl]; simp)) (hClsub c3 (by rw [hCl]; simp))
  have hdrop4 : b.drop 4 = (b.drop 4).take 4
      ++ ((b.drop 8).take (b.length - 12) ++ b.drop (b.length - 4)) := by
    conv_lhs => rw [e]
    rw [List.append_assoc, List.append_assoc]
    exact List.drop_left' l1
  have h3 : (Chunk.new ct ((b.drop 8).take (b.length - 12))).as_bytes
      = u32BeBytes ((b.length - 12) % 2 ^ 32) ++ b.drop 4 := by
    calc (Chunk.new ct ((b.drop 8).take (b.length - 12))).as_bytes
        = u32BeBytes (((b.drop 8).take (b.length - 12)).length % 2 ^ 32)
          ++ (ct.bytes ++ ((b.drop 8).take (b.length - 12)
            ++ u32BeBytes (crc32 (ct.bytes ++ (b.drop 8).take (b.length - 12))))) :=
          as_bytes_assoc ct _
      _ = u32BeBytes ((b.length - 12) % 2 ^ 32)
          ++ (ct.bytes ++ ((b.drop 8).take (b.length - 12)
            ++ b.drop (b.length - 4))) := by rw [l3, hcrc, hBeCl]
      _ = u32BeBytes ((b.length - 12) % 2 ^ 32) ++ b.drop 4 := by
          rw [hdrop4, ← hct_eq]
  have hlenf : (b.length - 12) % 2 ^ 32 < 2 ^ 32 := Nat.mod_lt _ (by norm_num)
  refine ⟨by simp [Chunk.new, l3], rfl, h3, ?_, ?_⟩
  · intro hser
    rw [h3] at hser
    have hb : b.take 4 ++ b.drop 4 = b := List.take_append_drop 4 b
    have := List.append_cancel_right (hser.trans hb.symm)
    rw [← this, u32FromBe_u32Be _ hlenf]
  · intro hfield
    obtain ⟨a0, a1, a2, a3, hA⟩ := exists_four _ l1
    have hAsub : ∀ x ∈ b.take 4, x < 256 := fun x hx =>
      h256 x (List.take_subset _ _ hx)
    have hBeA : u32BeBytes (u32FromBeBytes (b.take 4)) = b.take 4 := by
      rw [hA]
      exact u32Be_u32FromBe a0 a1 a2 a3
        (hAsub a0 (by rw [hA]; simp)) (hAsub a1 (by rw [hA]; simp))
        (hAsub a2 (by rw [hA]; simp)) (hAsub a3 (by rw [hA]; simp))
    have htake : b.take 4 = u32BeBytes ((b.length - 12) % 2 ^ 32) := by
      rw [← hBeA, hfield]
    rw [h3, ← htake]
    exact List.take_append_drop 4 b

set_option maxRecDepth 10000 in
theorem parse_ignores_declared_length_witness :
    (Chunk.new ⟨82, 117, 83, 116⟩ [5]).length
        = ((Chunk.new ⟨82, 117, 83, 116⟩ [5]).as_bytes.length - 12) % 2 ^ 32
    ∧ (Chunk.new ⟨82, 117, 83, 116⟩ [5]).data
        = ((Chunk.new ⟨82, 117, 83, 116⟩ [5]).as_bytes.drop 8).take
            ((Chunk.new ⟨82, 117, 83, 116⟩ [5]).as_bytes.length - 12)
    ∧ (Chunk.new ⟨82, 117, 83, 116⟩ [5]).as_bytes
        = u32BeBytes (((Chunk.new ⟨82, 117, 83, 116⟩ [5]).as_bytes.length - 12)
              % 2 ^ 32)
          ++ (Chunk.new ⟨82, 117, 83, 116⟩ [5]).as_bytes.drop 4
    ∧ ((Chunk.new ⟨82, 117, 83, 116⟩ [5]).as_bytes
          = (Chunk.new ⟨82, 117, 83, 116⟩ [5]).as_bytes
        ↔ u32FromBeBytes ((Chunk.new ⟨82, 117, 83, 116⟩ [5]).as_bytes.take 4)
          = ((Chunk.new ⟨82, 117, 83, 116⟩ [5]).as_bytes.length - 12) % 2 ^ 32) :=
  parse_ignores_declared_length (Chunk.new ⟨82, 117, 83, 116⟩ [5]).as_bytes
    (Chunk.new ⟨82, 117, 83, 116⟩ [5]) (by decide) (by decide) (by rfl)

end PngCodec
